import Mathlib

/-!
Verification of the agent execution core of Agent-Next-Web.

This file shallowly embeds the agent loop of `src/app/agent/codeact.py`
(`CodeActAgent.think`, `CodeActAgent.act`, `CodeActAgent._run_command`,
`CodeActAgent._is_special_command`) together with the in-place prompt
formatting of `src/app/agent/swe.py` (`SWEAgent.think`), and proves the
spec's testable properties about them.

Embedding conventions: a tool capability is a function from its argument
mapping to an outcome that either returns a value (modelled as a `String`,
with `""` playing the role of a Python falsy result) or raises, carrying the
formatted traceback text.  The registry `tool_execution_map` is an
association list.  `await`/`async` disappears in the embedding: both the
suspending and the immediately-returning capability branch of
`_run_command` produce the same value, so a single function application
models the uniform invocation.  Components of the repository that are not
under `src/` (the base run loop, the message schema constructors, the
command extractor) are modelled from the spec and carry a doc comment
saying so.
-/

namespace AgentNextWeb

/-- Agent run state, from `app.schema.AgentState` as the agents use it:
`IDLE` at construction, `RUNNING` during the loop, `FINISHED` once a terminal
command executes, `ERROR` for unrecoverable loop-level failures. -/
inductive AgentState where
  | IDLE
  | RUNNING
  | FINISHED
  | ERROR
deriving DecidableEq, Repr

/-- Argument mapping of a tool call (`args` in `_run_command`). -/
abbrev Args := List (String × String)

/-- Outcome of invoking a tool capability: the Python callable either returns
a value or raises; a raised exception carries its formatted traceback text
(the string `traceback.format_exc()` would produce). -/
inductive ExecOutcome where
  | ok (result : String)
  | raises (trace : String)
deriving DecidableEq, Repr

/-- A tool capability, the `execute` callable stored in
`tool_execution_map` (src/app/agent/codeact.py, lines 38-43). -/
abbrev Capability := Args → ExecOutcome

/-- A model tool-call request as `act` consumes it: correlation `id`,
function name (`command.function.name`) and arguments, flattened. -/
structure ToolCall where
  id : String
  name : String
  arguments : Args
deriving DecidableEq, Repr

/-- The normalized command dictionary handed to `_run_command`:
`cmd.get("command")` yields `none` when the key is absent, and `args`
defaults to the empty mapping. -/
structure Cmd where
  command : Option String
  args : Args
deriving DecidableEq, Repr

/-- Modelled from the spec: the Command Extractor
(`transform_tool_call_to_command` in `app/utils`, not under `src/`)
normalizes a model tool-call request into the uniform command shape of
name and arguments; the correlation id stays on the tool call. -/
def transform_tool_call_to_command (tc : ToolCall) : Cmd :=
  { command := some tc.name, args := tc.arguments }

/-- Conversation roles of the Message data model. -/
inductive Role where
  | user
  | assistant
  | tool
deriving DecidableEq, Repr

/-- Modelled from the spec: the Message record of `app.schema` (not under
`src/`): role, optional text content, the assistant's ordered tool-call
requests, and for tool messages the correlation id and tool name. -/
structure Message where
  role : Role
  content : Option String := none
  tool_calls : Option (List ToolCall) := none
  tool_call_id : Option String := none
  name : Option String := none
deriving DecidableEq, Repr

/-- Modelled from the spec: `Message.from_tool_calls` of `app.schema` (not
under `src/`), recording the model's free-text content and its list of
requested commands as a new assistant message. -/
def Message.from_tool_calls (content : Option String)
    (tool_calls : Option (List ToolCall)) : Message :=
  { role := Role.assistant, content := content, tool_calls := tool_calls }

/-- Modelled from the spec: `Message.tool_message` of `app.schema` (not
under `src/`), a tool-role message carrying an observation, keyed by the
originating command's correlation id and tool name. -/
def Message.tool_message (content : String) (tool_call_id : String)
    (name : String) : Message :=
  { role := Role.tool, content := some content,
    tool_call_id := some tool_call_id, name := some name }

/-- Modelled from the spec: a user-role message holding the round
instruction text. -/
def Message.user_message (content : String) : Message :=
  { role := Role.user, content := some content }

/-- Shallow embedding of `CodeActAgent._is_special_command`
(src/app/agent/codeact.py, lines 146-147): membership of the command's name
in the agent's configured `special_tool_commands` list.  The Python code
indexes `cmd["command"]`, which every call site reaches only with a present
name, so the embedding takes the name directly. -/
def isSpecialCommand (special : List String) (cmdName : String) : Bool :=
  special.contains cmdName

/-- Default terminal-command set of `CodeActAgent`
(src/app/agent/codeact.py, line 31). -/
def codeactSpecialToolCommands : List String := ["finish"]

/-- Modelled from the spec: the name of the attempt-completion tool
(`AttemptCompletionClientRequest.name` in `app/tool`, not under `src/`);
the spec describes it only as the agent's single attempt-completion tool
name. -/
def attemptCompletionName : String := "attempt_completion"

/-- Default terminal-command set of `MidwitAgent`
(src/app/agent/midwit.py, lines 33-35): the attempt-completion tool name. -/
def midwitSpecialToolCommands : List String := [attemptCompletionName]

/-- Shallow embedding of `CodeActAgent._run_command`
(src/app/agent/codeact.py, lines 96-144).  A missing or empty name and an
unregistered name yield formatted error observations; a registered
capability is invoked, a successful result is wrapped in the observation
text (with a fixed sentence substituted for a falsy result) and, if the
command is terminal, the agent state becomes `FINISHED`; a raised exception
is caught and returned as an error observation, the state untouched. -/
def runCommand (registry : List (String × Capability)) (special : List String)
    (cmd : Cmd) (state : AgentState) : String × AgentState :=
  match cmd.command with
  | none => ("Error:\nNo command specified.", state)
  | some cmdName =>
    if cmdName = "" then
      ("Error:\nNo command specified.", state)
    else
      match registry.lookup cmdName with
      | none => ("Error:\nCommand '" ++ cmdName ++ "' not found.", state)
      | some toolObj =>
        match toolObj cmd.args with
        | ExecOutcome.raises trace => ("Error:\n" ++ trace, state)
        | ExecOutcome.ok result =>
          (("Observed result of command `" ++ cmdName ++ "` executed by user:\n")
              ++ (if result ≠ "" then result
                  else "The command ran successfully and did not produce any output."),
           if isSpecialCommand special cmdName then AgentState.FINISHED else state)

/-- Left-to-right, non-overlapping replacement of a pattern inside a
character list, fuelled by the list length so the recursion is structural. -/
def replaceAux (pat rep : List Char) : Nat → List Char → List Char
  | 0, l => l
  | fuel + 1, l =>
    match l with
    | [] => []
    | c :: cs =>
      if pat.isPrefixOf l then
        rep ++ replaceAux pat rep fuel (l.drop pat.length)
      else
        c :: replaceAux pat rep fuel cs

/-- The current-directory placeholder of the round-instruction templates. -/
def currentDirPlaceholder : String := "\x7bcurrent_dir\x7d"

/-- Python `str.format` specialised to templates whose only placeholder is
the current-directory one (the case in these agents): every occurrence of
the placeholder is replaced by the argument. -/
def formatTemplate (template : String) (currentDir : String) : String :=
  ⟨replaceAux currentDirPlaceholder.data currentDir.data
      template.data.length template.data⟩

/-- Per-run configuration of a `CodeActAgent`: the tool registry built by
`set_tool_execution_map`, the terminal-command set, the round-instruction
template `next_step_prompt` (never reassigned by this agent) and the step
budget. -/
structure AgentCfg where
  registry : List (String × Capability)
  special : List String
  nextStepPrompt : String
  maxSteps : Nat

/-- Mutable per-run state of a `CodeActAgent`: agent state, message log,
pending command batch, working-directory snapshot and step counter. -/
structure AgentSt where
  state : AgentState
  memory : List Message
  commands : List ToolCall
  workingDir : String
  steps : Nat
deriving DecidableEq, Repr

/-- The oracle's answer: optional free text and an optional ordered list of
tool-call requests (`response.tool_calls` may be `None`). -/
structure OracleResponse where
  content : Option String
  tool_calls : Option (List ToolCall)

/-- The transient message view `CodeActAgent.think` sends to the oracle
(src/app/agent/codeact.py, lines 50-56): the persisted log plus, when a
round-instruction template is configured, one user message holding the
template formatted with the freshly refreshed working directory. -/
def thinkMessages (cfg : AgentCfg) (pwd : String) (st : AgentSt) : List Message :=
  if cfg.nextStepPrompt ≠ "" then
    st.memory ++ [Message.user_message (formatTemplate cfg.nextStepPrompt pwd)]
  else
    st.memory

/-- Shallow embedding of `CodeActAgent.think` (src/app/agent/codeact.py,
lines 45-76): refresh the working directory (`pwd` is the environment's
answer to `self.bash.execute("pwd")`), consult the oracle on the transient
message view, store the returned tool calls (`or []`) as the pending
commands, append exactly one assistant message to the persisted log, and
return whether any commands were produced. -/
def think (cfg : AgentCfg) (oracle : List Message → OracleResponse)
    (pwd : String) (st : AgentSt) : AgentSt × Bool :=
  let response := oracle (thinkMessages cfg pwd st)
  let commands := response.tool_calls.getD []
  ({ st with
      workingDir := pwd,
      commands := commands,
      memory := st.memory ++ [Message.from_tool_calls response.content response.tool_calls] },
   !commands.isEmpty)

/-- One iteration of the dispatch loop body of `CodeActAgent.act`
(src/app/agent/codeact.py, lines 84-92): run the command, append the tool
message keyed by the command's correlation id and name, and hand back the
output. -/
def actStep (cfg : AgentCfg) (st : AgentSt) (command : ToolCall) : AgentSt × String :=
  let out := runCommand cfg.registry cfg.special
      (transform_tool_call_to_command command) st.state
  ({ st with
      state := out.2,
      memory := st.memory ++ [Message.tool_message out.1 command.id command.name] },
   out.1)

/-- The dispatch loop of `CodeActAgent.act` over a command batch, threading
the agent state and collecting the outputs in order. -/
def actGo (cfg : AgentCfg) (st : AgentSt) : List ToolCall → AgentSt × List String
  | [] => (st, [])
  | c :: cs =>
    let step := actStep cfg st c
    let rest := actGo cfg step.1 cs
    (rest.1, step.2 :: rest.2)

/-- Shallow embedding of `CodeActAgent.act` (src/app/agent/codeact.py,
lines 78-94): with no pending commands return the fixed sentence; otherwise
dispatch every command in order and join the outputs with blank lines. -/
def act (cfg : AgentCfg) (st : AgentSt) : AgentSt × String :=
  if st.commands.isEmpty then
    (st, "No commands to execute")
  else
    let r := actGo cfg st st.commands
    (r.1, String.intercalate "\n\n" r.2)

/-- The agent state a fully executed round (one `think`, then `act` on the
produced batch, then the step-counter increment) hands to the next round. -/
def roundSt (cfg : AgentCfg) (oracle : List Message → OracleResponse)
    (pwd : String) (st : AgentSt) : AgentSt :=
  { (act cfg (think cfg oracle pwd st).1).1 with
      steps := ((act cfg (think cfg oracle pwd st).1).1).steps + 1 }

/-- Modelled from the spec: `BaseAgent.run` (app/agent/base.py, not under
`src/`).  The Agent Loop drives rounds while the state is not terminal and
the step budget remains: each round is one `think`; if no commands were
produced the loop terminates after that round; otherwise `act` executes the
whole batch and the step counter increments once per completed round
(`roundSt`).  The list argument supplies the environment's answer to each
round's working-directory query and bounds the rounds available.  Returns
the final agent and the number of rounds begun. -/
def runLoop (cfg : AgentCfg) (oracle : List Message → OracleResponse) :
    List String → AgentSt → AgentSt × Nat
  | [], st => (st, 0)
  | pwd :: rest, st =>
    if st.state = AgentState.FINISHED ∨ st.state = AgentState.ERROR then
      (st, 0)
    else if cfg.maxSteps ≤ st.steps then
      (st, 0)
    else if (think cfg oracle pwd st).2 = false then
      ({ (think cfg oracle pwd st).1 with
          steps := ((think cfg oracle pwd st).1).steps + 1 }, 1)
    else
      ((runLoop cfg oracle rest (roundSt cfg oracle pwd st)).1,
       (runLoop cfg oracle rest (roundSt cfg oracle pwd st)).2 + 1)

/-- Mutable per-run state of an `SWEAgent`: unlike `CodeActAgent`, its
round-instruction prompt is a mutable instance field that
`SWEAgent.think` reassigns in place. -/
structure SweSt where
  state : AgentState
  memory : List Message
  commands : List ToolCall
  workingDir : String
  nextStepPrompt : String
deriving DecidableEq, Repr

/-- Modelled from the spec: `ToolCallAgent.think` (app/agent/toolcall.py,
not under `src/`).  Per the spec's round algorithm it appends the agent's
current round instruction as a user message to a transient view of the log,
consults the oracle, and persists only the resulting assistant message,
returning whether any commands were produced. -/
def toolCallThink (oracle : List Message → OracleResponse) (st : SweSt) :
    SweSt × Bool :=
  let response := oracle (st.memory ++ [Message.user_message st.nextStepPrompt])
  let commands := response.tool_calls.getD []
  ({ st with
      commands := commands,
      memory := st.memory ++ [Message.from_tool_calls response.content response.tool_calls] },
   !commands.isEmpty)

/-- Shallow embedding of `SWEAgent.think` (src/app/agent/swe.py, lines
69-77): refresh the working directory, reassign `next_step_prompt` to the
stored prompt formatted with it — consuming the placeholder in place — and
delegate to the inherited think. -/
def sweThink (oracle : List Message → OracleResponse) (pwd : String)
    (st : SweSt) : SweSt × Bool :=
  toolCallThink oracle
    { st with
        workingDir := pwd,
        nextStepPrompt := formatTemplate st.nextStepPrompt pwd }

/-- The tool message `act` records for one executed tool call; by
`runCommand_fst_state` the observation text does not depend on the incoming
agent state, so it is stated at `RUNNING`. -/
def toolMsgOf (cfg : AgentCfg) (c : ToolCall) : Message :=
  Message.tool_message
    (runCommand cfg.registry cfg.special (transform_tool_call_to_command c)
      AgentState.RUNNING).1
    c.id c.name

/-- Concrete capability that succeeds with a falsy (empty) result, as the
`finish` tool does. -/
def exFinishCap : Capability := fun _ => ExecOutcome.ok ""

/-- Concrete capability that succeeds with a non-empty result. -/
def exEchoCap : Capability := fun _ => ExecOutcome.ok "hello"

/-- Concrete capability that raises; the trace is the text
`traceback.format_exc()` would yield. -/
def exBoomCap : Capability :=
  fun _ => ExecOutcome.raises "Traceback (most recent call last):\n  boom"

/-- Concrete tool registry for witnesses and counterexamples. -/
def exRegistry : List (String × Capability) :=
  [("finish", exFinishCap), ("echo", exEchoCap), ("boom", exBoomCap)]

/-- Concrete configuration mirroring the `CodeActAgent` defaults. -/
def exCfg : AgentCfg :=
  { registry := exRegistry,
    special := codeactSpecialToolCommands,
    nextStepPrompt := "You are in \x7bcurrent_dir\x7d.",
    maxSteps := 30 }

/-- Fresh concrete run state. -/
def exSt0 : AgentSt :=
  { state := AgentState.RUNNING, memory := [], commands := [],
    workingDir := ".", steps := 0 }

/-- Concrete batch holding a terminal command followed by another command. -/
def exBatch : List ToolCall :=
  [{ id := "c1", name := "finish", arguments := [] },
   { id := "c2", name := "echo", arguments := [] }]

/-- Concrete run state whose pending batch is `exBatch`. -/
def exStBatch : AgentSt := { exSt0 with commands := exBatch }

/-- Concrete oracle answering every consultation with the terminal batch. -/
def exTermOracle : List Message → OracleResponse :=
  fun _ => { content := some "done", tool_calls := some exBatch }

/-- Concrete oracle answering every consultation with no tool calls. -/
def exNoneOracle : List Message → OracleResponse :=
  fun _ => { content := some "nothing to do", tool_calls := none }

/-- Fresh concrete `SWEAgent` state whose stored round-instruction template
holds the current-directory placeholder. -/
def exSweSt0 : SweSt :=
  { state := AgentState.RUNNING, memory := [], commands := [],
    workingDir := ".",
    nextStepPrompt := "dir: \x7bcurrent_dir\x7d" }

theorem runCommand_fst_state (registry : List (String × Capability))
    (special : List String) (cmd : Cmd) (st st' : AgentState) :
    (runCommand registry special cmd st).1 = (runCommand registry special cmd st').1 := by
  unfold runCommand
  cases cmd.command with
  | none => rfl
  | some n =>
    dsimp only
    by_cases h : n = ""
    · rw [if_pos h]
      rw [if_pos h]
    · rw [if_neg h, if_neg h]
      cases registry.lookup n with
      | none => rfl
      | some cap =>
        dsimp only
        cases cap cmd.args with
        | ok r => rfl
        | raises t => rfl

theorem runCommand_snd_eq_or (registry : List (String × Capability))
    (special : List String) (cmd : Cmd) (st : AgentState) :
    (runCommand registry special cmd st).2 = st ∨
      (runCommand registry special cmd st).2 = AgentState.FINISHED := by
  unfold runCommand
  cases cmd.command with
  | none => exact Or.inl rfl
  | some n =>
    dsimp only
    by_cases h : n = ""
    · rw [if_pos h]
      exact Or.inl rfl
    · rw [if_neg h]
      cases registry.lookup n with
      | none => exact Or.inl rfl
      | some cap =>
        dsimp only
        cases cap cmd.args with
        | raises t => exact Or.inl rfl
        | ok r =>
          dsimp only
          by_cases hs : isSpecialCommand special n = true
          · rw [if_pos hs]
            exact Or.inr rfl
          · rw [if_neg hs]
            exact Or.inl rfl

theorem runCommand_finished_absorb (registry : List (String × Capability))
    (special : List String) (cmd : Cmd) :
    (runCommand registry special cmd AgentState.FINISHED).2 = AgentState.FINISHED := by
  rcases runCommand_snd_eq_or registry special cmd AgentState.FINISHED with h | h
  · exact h
  · exact h

theorem runCommand_snd_finished_all (registry : List (String × Capability))
    (special : List String) (cmd : Cmd) (st : AgentState)
    (h : (runCommand registry special cmd AgentState.RUNNING).2 = AgentState.FINISHED) :
    (runCommand registry special cmd st).2 = AgentState.FINISHED := by
  unfold runCommand at h ⊢
  cases hc : cmd.command with
  | none =>
    rw [hc] at h
    simp at h
  | some n =>
    rw [hc] at h
    dsimp only at h ⊢
    by_cases he : n = ""
    · rw [if_pos he] at h
      simp at h
    · rw [if_neg he] at h ⊢
      cases hl : registry.lookup n with
      | none =>
        rw [hl] at h
        simp at h
      | some cap =>
        rw [hl] at h
        dsimp only at h ⊢
        cases ho : cap cmd.args with
        | raises t =>
          rw [ho] at h
          simp at h
        | ok r =>
          rw [ho] at h
          dsimp only at h ⊢
          by_cases hs : isSpecialCommand special n = true
          · simp [hs]
          · rw [if_neg hs] at h
            simp at h

theorem actGo_memory (cfg : AgentCfg) (cmds : List ToolCall) :
    ∀ st : AgentSt,
      ((actGo cfg st cmds).1).memory = st.memory ++ cmds.map (toolMsgOf cfg) := by
  induction cmds with
  | nil =>
    intro st
    simp [actGo]
  | cons c cs ih =>
    intro st
    dsimp only [actGo]
    rw [ih]
    dsimp only [actStep, List.map_cons]
    rw [runCommand_fst_state cfg.registry cfg.special
      (transform_tool_call_to_command c) st.state AgentState.RUNNING]
    simp [toolMsgOf]

theorem actGo_state_finished (cfg : AgentCfg) (cmds : List ToolCall) :
    ∀ st : AgentSt, st.state = AgentState.FINISHED →
      ((actGo cfg st cmds).1).state = AgentState.FINISHED := by
  induction cmds with
  | nil =>
    intro st h
    simpa [actGo] using h
  | cons c cs ih =>
    intro st h
    dsimp only [actGo]
    apply ih
    dsimp only [actStep]
    rw [h]
    exact runCommand_finished_absorb cfg.registry cfg.special
      (transform_tool_call_to_command c)

theorem actGo_state_trigger (cfg : AgentCfg) (cmds : List ToolCall) :
    ∀ st : AgentSt,
      (∃ c ∈ cmds,
        (runCommand cfg.registry cfg.special (transform_tool_call_to_command c)
          AgentState.RUNNING).2 = AgentState.FINISHED) →
      ((actGo cfg st cmds).1).state = AgentState.FINISHED := by
  induction cmds with
  | nil =>
    intro st h
    rcases h with ⟨c, hc, _⟩
    simp at hc
  | cons c cs ih =>
    intro st h
    rcases h with ⟨d, hd, hfin⟩
    rcases List.mem_cons.mp hd with heq | hd'
    · subst heq
      dsimp only [actGo]
      apply actGo_state_finished
      dsimp only [actStep]
      exact runCommand_snd_finished_all cfg.registry cfg.special _ st.state hfin
    · dsimp only [actGo]
      exact ih _ ⟨d, hd', hfin⟩

theorem think_fst_memory (cfg : AgentCfg) (oracle : List Message → OracleResponse)
    (pwd : String) (st : AgentSt) :
    ((think cfg oracle pwd st).1).memory
      = st.memory ++ [Message.from_tool_calls
          (oracle (thinkMessages cfg pwd st)).content
          (oracle (thinkMessages cfg pwd st)).tool_calls] := rfl

theorem think_fst_state (cfg : AgentCfg) (oracle : List Message → OracleResponse)
    (pwd : String) (st : AgentSt) :
    ((think cfg oracle pwd st).1).state = st.state := rfl

theorem think_fst_commands (cfg : AgentCfg) (oracle : List Message → OracleResponse)
    (pwd : String) (st : AgentSt) :
    ((think cfg oracle pwd st).1).commands
      = (oracle (thinkMessages cfg pwd st)).tool_calls.getD [] := rfl

theorem think_snd (cfg : AgentCfg) (oracle : List Message → OracleResponse)
    (pwd : String) (st : AgentSt) :
    (think cfg oracle pwd st).2
      = !(((think cfg oracle pwd st).1).commands).isEmpty := rfl

theorem act_empty (cfg : AgentCfg) (st : AgentSt)
    (h : st.commands.isEmpty = true) :
    act cfg st = (st, "No commands to execute") := by
  simp [act, h]

theorem act_nonempty (cfg : AgentCfg) (st : AgentSt)
    (h : st.commands.isEmpty = false) :
    (act cfg st).1 = (actGo cfg st st.commands).1 := by
  simp [act, h]

theorem runLoop_terminal (cfg : AgentCfg) (oracle : List Message → OracleResponse)
    (script : List String) (st : AgentSt)
    (h : st.state = AgentState.FINISHED ∨ st.state = AgentState.ERROR) :
    runLoop cfg oracle script st = (st, 0) := by
  cases script with
  | nil => rfl
  | cons p rest =>
    unfold runLoop
    rw [if_pos h]

theorem runLoop_cons_nocmds (cfg : AgentCfg) (oracle : List Message → OracleResponse)
    (pwd : String) (rest : List String) (st : AgentSt)
    (hstate : st.state = AgentState.RUNNING)
    (hsteps : st.steps < cfg.maxSteps)
    (hfalse : (think cfg oracle pwd st).2 = false) :
    runLoop cfg oracle (pwd :: rest) st
      = ({ (think cfg oracle pwd st).1 with
            steps := ((think cfg oracle pwd st).1).steps + 1 }, 1) := by
  unfold runLoop
  rw [if_neg (by simp [hstate]), if_neg (Nat.not_le.mpr hsteps), if_pos hfalse]

theorem runLoop_cons_cmds (cfg : AgentCfg) (oracle : List Message → OracleResponse)
    (pwd : String) (rest : List String) (st : AgentSt)
    (hstate : st.state = AgentState.RUNNING)
    (hsteps : st.steps < cfg.maxSteps)
    (htrue : (think cfg oracle pwd st).2 = true) :
    runLoop cfg oracle (pwd :: rest) st
      = ((runLoop cfg oracle rest (roundSt cfg oracle pwd st)).1,
         (runLoop cfg oracle rest (roundSt cfg oracle pwd st)).2 + 1) := by
  conv_lhs => unfold runLoop
  rw [if_neg (by simp [hstate]), if_neg (Nat.not_le.mpr hsteps),
    if_neg (by simp [htrue])]

/-- C1: for every command whose registered capability raises during
dispatch, `_run_command` catches the exception and returns — never
re-raises — an observation reading "Error:" plus a newline followed by the
full diagnostic traceback, and the `act` loop goes on to dispatch every
command of the batch, each producing an appended tool message. -/
theorem dispatch_exception_contained (registry : List (String × Capability))
    (special : List String) (name : String) (cap : Capability) (args : Args)
    (trace : String) (st : AgentState)
    (hname : name ≠ "") (hreg : registry.lookup name = some cap)
    (hraise : cap args = ExecOutcome.raises trace) :
    runCommand registry special { command := some name, args := args } st
      = ("Error:\n" ++ trace, st)
    ∧ ∀ (cfg : AgentCfg) (s : AgentSt) (cmds : List ToolCall),
        ((actGo cfg s cmds).1).memory.length = s.memory.length + cmds.length := by
  constructor
  · unfold runCommand
    dsimp only
    rw [if_neg hname, hreg]
    dsimp only
    rw [hraise]
  · intro cfg s cmds
    rw [actGo_memory]
    simp

/-- Witness for C1: the concrete `boom` capability raises, its dispatch
returns the traceback observation, and the loop invariant holds. -/
theorem dispatch_exception_contained_w :
    (("boom" : String) ≠ "" ∧ exRegistry.lookup "boom" = some exBoomCap
      ∧ exBoomCap [] = ExecOutcome.raises "Traceback (most recent call last):\n  boom")
    ∧ (runCommand exRegistry codeactSpecialToolCommands
          { command := some "boom", args := [] } AgentState.RUNNING
        = ("Error:\n" ++ "Traceback (most recent call last):\n  boom", AgentState.RUNNING)
      ∧ ∀ (cfg : AgentCfg) (s : AgentSt) (cmds : List ToolCall),
          ((actGo cfg s cmds).1).memory.length = s.memory.length + cmds.length) :=
  ⟨⟨by decide, rfl, rfl⟩,
   dispatch_exception_contained exRegistry codeactSpecialToolCommands "boom"
     exBoomCap [] "Traceback (most recent call last):\n  boom" AgentState.RUNNING
     (by decide) rfl rfl⟩

/-- C2 counterexample: in the concrete two-command batch whose first
command is terminal, the Agent State is already `FINISHED` after processing
only the first command, while a second command of the batch remains —
refuting "the Agent State becomes FINISHED only after the batch finishes
processing". -/
theorem terminal_midbatch_finishes_early :
    exStBatch.commands.length = 2
    ∧ ((actGo exCfg exStBatch (exStBatch.commands.take 1)).1).state
        = AgentState.FINISHED := by
  exact ⟨rfl, rfl⟩

/-- C2 (amended): given a terminal command that executes successfully
anywhere in the batch a round produced, all N commands execute and produce
appended observations — the log grows by exactly the assistant message plus
N tool messages — the Agent State becomes `FINISHED` when the terminal
command executes (possibly before the batch finishes, see the
counterexample) and is `FINISHED` once the batch finishes, and no further
round begins after that batch. -/
theorem terminal_batch_runs_all_then_stops (cfg : AgentCfg)
    (oracle : List Message → OracleResponse) (pwd : String)
    (rest : List String) (st : AgentSt)
    (hstate : st.state = AgentState.RUNNING)
    (hsteps : st.steps < cfg.maxSteps)
    (hterm : ∃ c ∈ ((think cfg oracle pwd st).1).commands,
        (runCommand cfg.registry cfg.special (transform_tool_call_to_command c)
          AgentState.RUNNING).2 = AgentState.FINISHED) :
    (runLoop cfg oracle (pwd :: rest) st).2 = 1
    ∧ ((runLoop cfg oracle (pwd :: rest) st).1).state = AgentState.FINISHED
    ∧ ((runLoop cfg oracle (pwd :: rest) st).1).memory.length
        = st.memory.length + 1 + ((think cfg oracle pwd st).1).commands.length := by
  rcases hterm with ⟨c, hc, hfin⟩
  have hne : ((think cfg oracle pwd st).1).commands ≠ [] :=
    List.ne_nil_of_mem hc
  have hempty : (((think cfg oracle pwd st).1).commands).isEmpty = false := by
    cases hcmds : ((think cfg oracle pwd st).1).commands with
    | nil => exact absurd hcmds hne
    | cons a as => rfl
  have htrue : (think cfg oracle pwd st).2 = true := by
    rw [think_snd, hempty]
    rfl
  have hact : (act cfg (think cfg oracle pwd st).1).1
      = (actGo cfg (think cfg oracle pwd st).1
          ((think cfg oracle pwd st).1).commands).1 :=
    act_nonempty cfg (think cfg oracle pwd st).1 hempty
  have hfinst : ((act cfg (think cfg oracle pwd st).1).1).state
      = AgentState.FINISHED := by
    rw [hact]
    exact actGo_state_trigger cfg _ _ ⟨c, hc, hfin⟩
  have hmem : ((act cfg (think cfg oracle pwd st).1).1).memory.length
      = st.memory.length + 1 + ((think cfg oracle pwd st).1).commands.length := by
    rw [hact, actGo_memory, think_fst_memory]
    simp only [List.length_append, List.length_map, List.length_cons,
      List.length_nil]
  have hstepst : (roundSt cfg oracle pwd st).state = AgentState.FINISHED := by
    simpa [roundSt] using hfinst
  have hrest : runLoop cfg oracle rest (roundSt cfg oracle pwd st)
      = (roundSt cfg oracle pwd st, 0) :=
    runLoop_terminal cfg oracle rest _ (Or.inl hstepst)
  rw [runLoop_cons_cmds cfg oracle pwd rest st hstate hsteps htrue, hrest]
  refine ⟨rfl, hstepst, ?_⟩
  show (roundSt cfg oracle pwd st).memory.length = _
  simpa [roundSt] using hmem

/-- Witness for C2: a fresh agent, an oracle emitting the terminal `finish`
call followed by an `echo` call; the run performs exactly one round, ends
`FINISHED`, and logs one assistant message plus both tool messages. -/
theorem terminal_batch_runs_all_then_stops_w :
    (exSt0.state = AgentState.RUNNING ∧ exSt0.steps < exCfg.maxSteps
      ∧ ∃ c ∈ ((think exCfg exTermOracle "/w" exSt0).1).commands,
          (runCommand exCfg.registry exCfg.special
            (transform_tool_call_to_command c) AgentState.RUNNING).2
            = AgentState.FINISHED)
    ∧ ((runLoop exCfg exTermOracle ["/w", "/w2"] exSt0).2 = 1
      ∧ ((runLoop exCfg exTermOracle ["/w", "/w2"] exSt0).1).state
          = AgentState.FINISHED
      ∧ ((runLoop exCfg exTermOracle ["/w", "/w2"] exSt0).1).memory.length
          = exSt0.memory.length + 1
            + ((think exCfg exTermOracle "/w" exSt0).1).commands.length) :=
  ⟨⟨rfl, by decide, by decide⟩,
   terminal_batch_runs_all_then_stops exCfg exTermOracle "/w" ["/w2"] exSt0
     rfl (by decide) (by decide)⟩

/-- C3: for every batch, `act` appends exactly one tool message per
dispatched command, each appended tool message's `tool_call_id` equals the
id of the command it answers, the messages appear in the same relative
order as their commands, and each has role `tool`. -/
theorem act_tool_messages_match_commands (cfg : AgentCfg) (st : AgentSt) :
    (((act cfg st).1).memory).length = st.memory.length + st.commands.length
    ∧ (((act cfg st).1).memory.drop st.memory.length).map
        (fun m => m.tool_call_id)
      = st.commands.map (fun c => some c.id)
    ∧ (((act cfg st).1).memory.drop st.memory.length).map (fun m => m.role)
      = st.commands.map (fun _ => Role.tool) := by
  cases hcmds : st.commands.isEmpty with
  | true =>
    have h0 : st.commands = [] := by
      cases h : st.commands with
      | nil => rfl
      | cons a as =>
        rw [h] at hcmds
        simp at hcmds
    rw [act_empty cfg st hcmds]
    simp [h0]
  | false =>
    have hmem := actGo_memory cfg st.commands st
    rw [act_nonempty cfg st hcmds, hmem]
    refine ⟨by simp, ?_, ?_⟩
    · rw [List.drop_left]
      simp [toolMsgOf, Message.tool_message, List.map_map, Function.comp_def]
    · rw [List.drop_left]
      simp [toolMsgOf, Message.tool_message, List.map_map, Function.comp_def]

/-- C4: dispatch of a command with an absent or empty name returns the
fixed "No command specified." error observation, and dispatch of a name not
in the registry returns the "not found" error observation; neither raises
and both leave the agent state unchanged. -/
theorem dispatch_missing_or_unknown_name (registry : List (String × Capability))
    (special : List String) (args : Args) (name : String) (st : AgentState)
    (hname : name ≠ "") (hmiss : registry.lookup name = none) :
    runCommand registry special { command := none, args := args } st
      = ("Error:\nNo command specified.", st)
    ∧ runCommand registry special { command := some "", args := args } st
      = ("Error:\nNo command specified.", st)
    ∧ runCommand registry special { command := some name, args := args } st
      = ("Error:\nCommand '" ++ name ++ "' not found.", st) := by
  refine ⟨rfl, by simp [runCommand], ?_⟩
  unfold runCommand
  dsimp only
  rw [if_neg hname, hmiss]

/-- Witness for C4: the unregistered name `unknown_tool` against the
concrete registry. -/
theorem dispatch_missing_or_unknown_name_w :
    (("unknown_tool" : String) ≠ ""
      ∧ exRegistry.lookup "unknown_tool" = none)
    ∧ (runCommand exRegistry codeactSpecialToolCommands
          { command := none, args := [] } AgentState.RUNNING
        = ("Error:\nNo command specified.", AgentState.RUNNING)
      ∧ runCommand exRegistry codeactSpecialToolCommands
          { command := some "", args := [] } AgentState.RUNNING
        = ("Error:\nNo command specified.", AgentState.RUNNING)
      ∧ runCommand exRegistry codeactSpecialToolCommands
          { command := some "unknown_tool", args := [] } AgentState.RUNNING
        = ("Error:\nCommand '" ++ "unknown_tool" ++ "' not found.",
           AgentState.RUNNING)) :=
  ⟨⟨by decide, rfl⟩,
   dispatch_missing_or_unknown_name exRegistry codeactSpecialToolCommands []
     "unknown_tool" AgentState.RUNNING (by decide) rfl⟩

/-- C5 counterexample: the dispatcher's actual success observation is
backticked and carries " executed by user", so it differs from the claimed
"Observed result of command 'echo':" format at the concrete `echo`
command. -/
theorem observation_format_differs :
    (runCommand exRegistry codeactSpecialToolCommands
        { command := some "echo", args := [] } AgentState.RUNNING).1
      = "Observed result of command `echo` executed by user:\nhello"
    ∧ (runCommand exRegistry codeactSpecialToolCommands
        { command := some "echo", args := [] } AgentState.RUNNING).1
      ≠ "Observed result of command 'echo':\nhello" := by
  decide

/-- C5 (amended): for every registered command whose capability returns a
result, the observation is "Observed result of command" plus the backticked
name and " executed by user:", a newline, then the result when it is
non-empty, or the fixed sentence "The command ran successfully and did not
produce any output." when the result is empty/falsy. -/
theorem observation_format_actual (registry : List (String × Capability))
    (special : List String) (name : String) (cap : Capability) (args : Args)
    (r : String) (st : AgentState)
    (hname : name ≠ "") (hreg : registry.lookup name = some cap)
    (hcap : cap args = ExecOutcome.ok r) :
    (runCommand registry special { command := some name, args := args } st).1
      = "Observed result of command `" ++ name ++ "` executed by user:\n"
        ++ (if r ≠ "" then r
            else "The command ran successfully and did not produce any output.") := by
  unfold runCommand
  dsimp only
  rw [if_neg hname, hreg]
  dsimp only
  rw [hcap]

/-- Witness for C5: the `echo` capability returns "hello" and the `finish`
capability returns the empty result; both observations follow the actual
format. -/
theorem observation_format_actual_w :
    (("echo" : String) ≠ "" ∧ exRegistry.lookup "echo" = some exEchoCap
      ∧ exEchoCap [] = ExecOutcome.ok "hello")
    ∧ (runCommand exRegistry codeactSpecialToolCommands
        { command := some "echo", args := [] } AgentState.RUNNING).1
      = "Observed result of command `" ++ "echo" ++ "` executed by user:\n"
        ++ (if ("hello" : String) ≠ "" then "hello"
            else "The command ran successfully and did not produce any output.") :=
  ⟨⟨by decide, rfl, rfl⟩,
   observation_format_actual exRegistry codeactSpecialToolCommands "echo"
     exEchoCap [] "hello" AgentState.RUNNING (by decide) rfl rfl⟩

/-- C6: the special-command check is a pure membership predicate — it holds
for a command name exactly when that name is in the agent's configured
terminal-command set — and the configured sets are `["finish"]` for
`CodeActAgent` and the attempt-completion tool name for `MidwitAgent`. -/
theorem is_special_command_is_membership :
    (∀ (special : List String) (cmdName : String),
        isSpecialCommand special cmdName = true ↔ cmdName ∈ special)
    ∧ codeactSpecialToolCommands = ["finish"]
    ∧ midwitSpecialToolCommands = [attemptCompletionName] := by
  refine ⟨?_, rfl, rfl⟩
  intro special n
  simp [isSpecialCommand, List.contains]

/-- C7: in every decision round `think` appends exactly one assistant
message to the Message Log, recording the oracle's free-text content and
its requested tool calls, unconditionally — also when the returned command
list is empty or absent. -/
theorem think_appends_one_assistant_message (cfg : AgentCfg)
    (oracle : List Message → OracleResponse) (pwd : String) (st : AgentSt) :
    ((think cfg oracle pwd st).1).memory
      = st.memory ++ [Message.from_tool_calls
          (oracle (thinkMessages cfg pwd st)).content
          (oracle (thinkMessages cfg pwd st)).tool_calls]
    ∧ (Message.from_tool_calls (oracle (thinkMessages cfg pwd st)).content
        (oracle (thinkMessages cfg pwd st)).tool_calls).role = Role.assistant
    ∧ (Message.from_tool_calls (oracle (thinkMessages cfg pwd st)).content
        (oracle (thinkMessages cfg pwd st)).tool_calls).content
      = (oracle (thinkMessages cfg pwd st)).content
    ∧ (Message.from_tool_calls (oracle (thinkMessages cfg pwd st)).content
        (oracle (thinkMessages cfg pwd st)).tool_calls).tool_calls
      = (oracle (thinkMessages cfg pwd st)).tool_calls
    ∧ ((think cfg oracle pwd st).1).memory.length = st.memory.length + 1 :=
  ⟨rfl, rfl, rfl, rfl, by simp [think_fst_memory]⟩

/-- C8: when the oracle returns zero commands in a round, `think` returns
`false`, the round appends only the assistant message (whose role is not
`tool`) and no tool messages, and the loop terminates after that round:
the run performs exactly one round and its final log is the round's log. -/
theorem zero_commands_ends_round_and_run (cfg : AgentCfg)
    (oracle : List Message → OracleResponse) (pwd : String)
    (rest : List String) (st : AgentSt)
    (hstate : st.state = AgentState.RUNNING)
    (hsteps : st.steps < cfg.maxSteps)
    (hzero : (oracle (thinkMessages cfg pwd st)).tool_calls.getD [] = []) :
    (think cfg oracle pwd st).2 = false
    ∧ ((think cfg oracle pwd st).1).memory
        = st.memory ++ [Message.from_tool_calls
            (oracle (thinkMessages cfg pwd st)).content
            (oracle (thinkMessages cfg pwd st)).tool_calls]
    ∧ (Message.from_tool_calls (oracle (thinkMessages cfg pwd st)).content
        (oracle (thinkMessages cfg pwd st)).tool_calls).role ≠ Role.tool
    ∧ ((runLoop cfg oracle (pwd :: rest) st).1).memory
        = ((think cfg oracle pwd st).1).memory
    ∧ (runLoop cfg oracle (pwd :: rest) st).2 = 1 := by
  have hcmds : ((think cfg oracle pwd st).1).commands = [] := by
    rw [think_fst_commands]
    exact hzero
  have hfalse : (think cfg oracle pwd st).2 = false := by
    rw [think_snd, hcmds]
    rfl
  refine ⟨hfalse, think_fst_memory cfg oracle pwd st,
    by simp [Message.from_tool_calls], ?_, ?_⟩
  · rw [runLoop_cons_nocmds cfg oracle pwd rest st hstate hsteps hfalse]
  · rw [runLoop_cons_nocmds cfg oracle pwd rest st hstate hsteps hfalse]

/-- Witness for C8: a fresh agent and the oracle returning no tool calls;
the run is one round long. -/
theorem zero_commands_ends_round_and_run_w :
    (exSt0.state = AgentState.RUNNING ∧ exSt0.steps < exCfg.maxSteps
      ∧ (exNoneOracle (thinkMessages exCfg "/w" exSt0)).tool_calls.getD [] = [])
    ∧ ((think exCfg exNoneOracle "/w" exSt0).2 = false
      ∧ ((think exCfg exNoneOracle "/w" exSt0).1).memory
          = exSt0.memory ++ [Message.from_tool_calls
              (exNoneOracle (thinkMessages exCfg "/w" exSt0)).content
              (exNoneOracle (thinkMessages exCfg "/w" exSt0)).tool_calls]
      ∧ (Message.from_tool_calls
          (exNoneOracle (thinkMessages exCfg "/w" exSt0)).content
          (exNoneOracle (thinkMessages exCfg "/w" exSt0)).tool_calls).role
          ≠ Role.tool
      ∧ ((runLoop exCfg exNoneOracle ["/w"] exSt0).1).memory
          = ((think exCfg exNoneOracle "/w" exSt0).1).memory
      ∧ (runLoop exCfg exNoneOracle ["/w"] exSt0).2 = 1) :=
  ⟨⟨rfl, by decide, rfl⟩,
   zero_commands_ends_round_and_run exCfg exNoneOracle "/w" [] exSt0
     rfl (by decide) rfl⟩

/-- C9 (code bug in `SWEAgent.think`): the working directory is refreshed
each round, but because `swe.py` reassigns `next_step_prompt` to its own
formatted value, the placeholder is consumed in round one; in round two the
instruction text still interpolates round one's directory "/a" although
the refreshed value is "/b" — the per-round interpolation the spec states
fails from the second round on.  `CodeActAgent.think` keeps its template
intact: its transient round instruction (`thinkMessages`) is formatted
fresh from the configured template and is not persisted to the log. -/
theorem swe_round_two_stale_directory :
    ((sweThink exNoneOracle "/b"
        ((sweThink exNoneOracle "/a" exSweSt0).1)).1).nextStepPrompt
      = "dir: /a"
    ∧ formatTemplate exSweSt0.nextStepPrompt "/b" = "dir: /b"
    ∧ thinkMessages exCfg "/b" exSt0
      = exSt0.memory
        ++ [Message.user_message (formatTemplate exCfg.nextStepPrompt "/b")]
    ∧ ("dir: /a" : String) ≠ "dir: /b" := by
  refine ⟨by decide, by decide, by decide, by decide⟩

/-- C10: an error-producing dispatch never changes the Agent State: if
`_run_command` changes the state at all, the new state is `FINISHED` and
the dispatched command was a registered terminal command whose capability
returned successfully — in particular a terminal command that raises does
not set `FINISHED`. -/
theorem finished_only_on_successful_terminal
    (registry : List (String × Capability)) (special : List String)
    (cmd : Cmd) (st : AgentState)
    (hchange : (runCommand registry special cmd st).2 ≠ st) :
    (runCommand registry special cmd st).2 = AgentState.FINISHED
    ∧ ∃ (name : String) (cap : Capability) (result : String),
        cmd.command = some name ∧ name ≠ ""
        ∧ registry.lookup name = some cap
        ∧ cap cmd.args = ExecOutcome.ok result
        ∧ isSpecialCommand special name = true := by
  unfold runCommand at hchange ⊢
  cases hc : cmd.command with
  | none =>
    rw [hc] at hchange
    simp at hchange
  | some n =>
    rw [hc] at hchange
    dsimp only at hchange ⊢
    by_cases he : n = ""
    · rw [if_pos he] at hchange
      simp at hchange
    · rw [if_neg he] at hchange ⊢
      cases hl : registry.lookup n with
      | none =>
        rw [hl] at hchange
        simp at hchange
      | some cap =>
        rw [hl] at hchange
        dsimp only at hchange ⊢
        cases ho : cap cmd.args with
        | raises t =>
          rw [ho] at hchange
          simp at hchange
        | ok r =>
          rw [ho] at hchange
          dsimp only at hchange ⊢
          by_cases hs : isSpecialCommand special n = true
          · exact ⟨by simp [hs], n, cap, r, rfl, he, hl, ho, hs⟩
          · rw [if_neg hs] at hchange
            simp at hchange

/-- Witness for C10: the successful terminal `finish` command from
`RUNNING` does change the state, and the characterization applies. -/
theorem finished_only_on_successful_terminal_w :
    (runCommand exRegistry codeactSpecialToolCommands
        { command := some "finish", args := [] } AgentState.RUNNING).2
      ≠ AgentState.RUNNING
    ∧ ((runCommand exRegistry codeactSpecialToolCommands
          { command := some "finish", args := [] } AgentState.RUNNING).2
        = AgentState.FINISHED
      ∧ ∃ (name : String) (cap : Capability) (result : String),
          (Cmd.mk (some "finish") []).command = some name ∧ name ≠ ""
          ∧ exRegistry.lookup name = some cap
          ∧ cap (Cmd.mk (some "finish") []).args = ExecOutcome.ok result
          ∧ isSpecialCommand codeactSpecialToolCommands name = true) :=
  ⟨by decide,
   finished_only_on_successful_terminal exRegistry codeactSpecialToolCommands
     { command := some "finish", args := [] } AgentState.RUNNING (by decide)⟩

end AgentNextWeb
